import Mathlib

/-!
Verification of the chunked YouTube-transcript summarization pipeline
(`src/app.py`) against its natural-language specification.

The embedding models Python strings as `List Char`.  `pySplit` models
Python's `str.split()` (split on whitespace runs, dropping empty tokens),
`splitNl` models `str.split('\n')` (keeping empty pieces), and `joinSep`
models `sep.join(...)`.  The pipeline functions (`chunk_text`,
`summarize_text_async`, `process_chunks_concurrently`, the cached
`get_transcript` and the module-level submitted handler) are translated
below next to the lemmas about them.
-/

/-- Whitespace characters recognized by Python's `str.split()` /
`str.strip()` (ASCII fragment). -/
def isSpaceChar (c : Char) : Bool :=
  c == ' ' || c == '\t' || c == '\n' || c == '\r' || c == '\x0b' || c == '\x0c'

/-- Accumulator worker for `pySplit`: `acc` holds the (reversed) word
currently being read. -/
def pySplitAux : List Char → List Char → List (List Char)
  | [], acc => if acc = [] then [] else [acc.reverse]
  | c :: cs, acc =>
    if isSpaceChar c then
      if acc = [] then pySplitAux cs [] else acc.reverse :: pySplitAux cs []
    else pySplitAux cs (c :: acc)

/-- Python `text.split()`: split on runs of whitespace, no empty tokens. -/
def pySplit (l : List Char) : List (List Char) := pySplitAux l []

/-- Python `sep.join(pieces)` for a one-character separator. -/
def joinSep (sep : Char) : List (List Char) → List Char
  | [] => []
  | [x] => x
  | x :: y :: t => x ++ sep :: joinSep sep (y :: t)

/-- Python `text.split('\n')`: split on each newline, keeping empty pieces
(`"".split('\n') == ['']`). -/
def splitNl : List Char → List (List Char)
  | [] => [[]]
  | c :: cs =>
    if c = '\n' then [] :: splitNl cs
    else
      match splitNl cs with
      | [] => [[c]]
      | p :: rest => (c :: p) :: rest

/-- Convenience: the character list of a string literal. -/
def str (s : String) : List Char := s.data

/-- A whitespace-free non-empty token, the shape of every element
returned by `pySplit`. -/
def Word (w : List Char) : Prop :=
  w ≠ [] ∧ ∀ c ∈ w, isSpaceChar c = false

lemma pySplitAux_append_space {m : Char} (hm : isSpaceChar m = true)
    (ys : List Char) :
    ∀ (xs acc : List Char),
      pySplitAux (xs ++ m :: ys) acc = pySplitAux xs acc ++ pySplitAux ys [] := by
  intro xs
  induction xs with
  | nil =>
    intro acc
    by_cases hacc : acc = [] <;> simp [pySplitAux, hm, hacc]
  | cons c cs ih =>
    intro acc
    by_cases hc : isSpaceChar c
    · by_cases hacc : acc = [] <;> simp [pySplitAux, hc, hacc, ih]
    · simp [pySplitAux, hc, ih]

lemma pySplit_joinSep {sep : Char} (hsep : isSpaceChar sep = true) :
    ∀ l : List (List Char), pySplit (joinSep sep l) = l.flatMap pySplit := by
  intro l
  induction l with
  | nil => rfl
  | cons x t ih =>
    cases t with
    | nil => simp [joinSep, pySplit]
    | cons y t' =>
      have hjoin : joinSep sep (x :: y :: t') = x ++ sep :: joinSep sep (y :: t') := rfl
      rw [List.flatMap_cons, ← ih, hjoin, pySplit, pySplitAux_append_space hsep]
      rfl

lemma pySplitAux_nonspace :
    ∀ (w acc : List Char), (∀ c ∈ w, isSpaceChar c = false) →
      pySplitAux w acc =
        if acc.reverse ++ w = [] then [] else [acc.reverse ++ w] := by
  intro w
  induction w with
  | nil =>
    intro acc _
    simp only [pySplitAux, List.append_nil]
    by_cases hacc : acc = [] <;> simp [hacc]
  | cons c cs ih =>
    intro acc hw
    have hc : isSpaceChar c = false := hw c (List.mem_cons_self c cs)
    have hcs : ∀ d ∈ cs, isSpaceChar d = false := fun d hd => hw d (List.mem_cons_of_mem c hd)
    simp only [pySplitAux, hc, Bool.false_eq_true, if_false, ih (c :: acc) hcs]
    simp

lemma pySplit_word {w : List Char} (hw : Word w) : pySplit w = [w] := by
  rcases hw with ⟨hne, hchars⟩
  rw [pySplit, pySplitAux_nonspace w [] hchars]
  simp [hne]

lemma pySplitAux_words :
    ∀ (l acc : List Char), (∀ c ∈ acc, isSpaceChar c = false) →
      ∀ w ∈ pySplitAux l acc, Word w := by
  intro l
  induction l with
  | nil =>
    intro acc hacc w hw
    by_cases h : acc = []
    · simp [pySplitAux, h] at hw
    · simp [pySplitAux, h] at hw
      subst hw
      refine ⟨by simpa using h, ?_⟩
      intro c hc
      exact hacc c (List.mem_reverse.mp hc)
  | cons c cs ih =>
    intro acc hacc w hw
    by_cases hc : isSpaceChar c
    · by_cases h : acc = []
      · rw [pySplitAux, if_pos hc, if_pos h] at hw
        exact ih [] (by simp) w hw
      · rw [pySplitAux, if_pos hc, if_neg h] at hw
        rcases List.mem_cons.mp hw with h1 | h1
        · subst h1
          refine ⟨by simpa using h, ?_⟩
          intro d hd
          exact hacc d (List.mem_reverse.mp hd)
        · exact ih [] (by simp) w h1
    · rw [pySplitAux, if_neg hc] at hw
      refine ih (c :: acc) ?_ w hw
      intro d hd
      rcases List.mem_cons.mp hd with h1 | h1
      · subst h1; simpa using hc
      · exact hacc d h1

lemma pySplit_words {l : List Char} : ∀ w ∈ pySplit l, Word w :=
  pySplitAux_words l [] (by simp)

lemma flatMap_pySplit_words {l : List (List Char)} (h : ∀ w ∈ l, Word w) :
    l.flatMap pySplit = l := by
  induction l with
  | nil => rfl
  | cons x t ih =>
    rw [List.flatMap_cons, pySplit_word (h x (List.mem_cons_self x t)),
      ih (fun w hw => h w (List.mem_cons_of_mem x hw))]
    rfl

lemma splitNl_ne_nil (t : List Char) : splitNl t ≠ [] := by
  cases t with
  | nil => simp [splitNl]
  | cons c cs =>
    by_cases h : c = '\n'
    · simp [splitNl, h]
    · simp only [splitNl, h, if_false]
      cases splitNl cs <;> simp

lemma joinSep_splitNl : ∀ t : List Char, joinSep '\n' (splitNl t) = t := by
  intro t
  induction t with
  | nil => rfl
  | cons c cs ih =>
    by_cases h : c = '\n'
    · subst h
      rw [splitNl, if_pos rfl]
      rcases hs : splitNl cs with _ | ⟨p, rest⟩
      · exact absurd hs (splitNl_ne_nil cs)
      · rw [hs] at ih
        calc joinSep '\n' ([] :: p :: rest)
            = [] ++ '\n' :: joinSep '\n' (p :: rest) := rfl
          _ = '\n' :: cs := by rw [ih]; rfl
    · rw [splitNl, if_neg h]
      rcases hs : splitNl cs with _ | ⟨p, rest⟩
      · exact absurd hs (splitNl_ne_nil cs)
      · rw [hs] at ih
        cases rest with
        | nil =>
          simp only [joinSep] at ih ⊢
          rw [ih]
        | cons q rest' =>
          calc joinSep '\n' ((c :: p) :: q :: rest')
              = (c :: p) ++ '\n' :: joinSep '\n' (q :: rest') := rfl
            _ = c :: (p ++ '\n' :: joinSep '\n' (q :: rest')) := rfl
            _ = c :: joinSep '\n' (p :: q :: rest') := rfl
            _ = c :: cs := by rw [ih]

lemma pySplit_eq_flatMap_splitNl (t : List Char) :
    pySplit t = (splitNl t).flatMap pySplit := by
  conv_lhs => rw [← joinSep_splitNl t]
  exact pySplit_joinSep (by decide) (splitNl t)

lemma splitNl_no_newline : ∀ t : List Char, '\n' ∉ t → splitNl t = [t] := by
  intro t
  induction t with
  | nil => intro _; rfl
  | cons c cs ih =>
    intro h
    have hc : c ≠ '\n' := fun he => h (he ▸ List.mem_cons_self c cs)
    have hcs : '\n' ∉ cs := fun hm => h (List.mem_cons_of_mem c hm)
    rw [splitNl, if_neg hc, ih hcs]

/-! ## Chunker (`chunk_text`, src/app.py lines 77-92) -/

/-- Configuration constant `MAX_WORDS_PER_CHUNK` (src/app.py line 10). -/
def MAX_WORDS_PER_CHUNK : Nat := 1500

/-- Loop body of `chunk_text`: walk the paragraphs, accumulating words into
`currentChunk` (`current_chunk` in the source) with running count
`currentWordCount`; when adding a paragraph's words would push the count
over `maxWords`, yield the current chunk first (note: the source has no
non-emptiness guard on this yield).  At end of input the final chunk is
yielded only if non-empty. -/
def chunkGo (maxWords : Nat) : List (List Char) → List (List Char) → Nat → List (List Char)
  | [], currentChunk, _ =>
    if currentChunk = [] then [] else [joinSep ' ' currentChunk]
  | para :: paras, currentChunk, currentWordCount =>
    if currentWordCount + (pySplit para).length > maxWords then
      joinSep ' ' currentChunk :: chunkGo maxWords paras (pySplit para) (pySplit para).length
    else
      chunkGo maxWords paras (currentChunk ++ pySplit para) (currentWordCount + (pySplit para).length)

/-- `chunk_text(text, max_words)`: split into paragraphs on newlines, then
group whole paragraphs into chunks of at most `maxWords` words (oversized
single paragraphs excepted), joining each chunk's words with spaces. -/
def chunk_text (text : List Char) (maxWords : Nat) : List (List Char) :=
  chunkGo maxWords (splitNl text) [] 0

lemma pySplit_joinSpace {l : List (List Char)} (h : ∀ w ∈ l, Word w) :
    pySplit (joinSep ' ' l) = l := by
  rw [pySplit_joinSep (by decide), flatMap_pySplit_words h]

lemma chunkGo_flatMap (maxWords : Nat) :
    ∀ (ps cur : List (List Char)) (cnt : Nat),
      (∀ w ∈ cur, Word w) →
      (chunkGo maxWords ps cur cnt).flatMap pySplit = cur ++ ps.flatMap pySplit := by
  intro ps
  induction ps with
  | nil =>
    intro cur cnt hcur
    by_cases h : cur = []
    · simp [chunkGo, h]
    · simp only [chunkGo, if_neg h, List.flatMap_cons, List.flatMap_nil,
        pySplit_joinSpace hcur, List.append_nil]
  | cons p ps ih =>
    intro cur cnt hcur
    by_cases hb : cnt + (pySplit p).length > maxWords
    · rw [chunkGo, if_pos hb, List.flatMap_cons, pySplit_joinSpace hcur,
        ih (pySplit p) (pySplit p).length pySplit_words, List.flatMap_cons]
    · rw [chunkGo, if_neg hb, ih (cur ++ pySplit p) _ ?_, List.flatMap_cons,
        List.append_assoc]
      intro w hw
      rcases List.mem_append.mp hw with h1 | h1
      · exact hcur w h1
      · exact pySplit_words w h1

/-- C1: chunking is lossless — for every input string and every
`maxWords > 0`, joining all chunks of `chunk_text text maxWords` with single
spaces and re-splitting on whitespace yields exactly the token sequence of
splitting `text` on whitespace. -/
theorem chunk_text_lossless (text : List Char) (maxWords : Nat) (_hmw : 0 < maxWords) :
    pySplit (joinSep ' ' (chunk_text text maxWords)) = pySplit text := by
  rw [pySplit_joinSep (by decide), chunk_text,
    chunkGo_flatMap maxWords (splitNl text) [] 0 (by simp),
    List.nil_append, ← pySplit_eq_flatMap_splitNl]

/-- C1 witness: losslessness evaluated at a concrete two-paragraph input
with `maxWords = 2`. -/
theorem chunk_text_lossless_witness :
    0 < 2 ∧ pySplit (joinSep ' ' (chunk_text (str "hola  mundo tres\n\npalabras mas") 2))
      = pySplit (str "hola  mundo tres\n\npalabras mas") :=
  ⟨by decide, chunk_text_lossless (str "hola  mundo tres\n\npalabras mas") 2 (by decide)⟩

lemma chunkGo_bound (maxWords : Nat) (paras : List (List Char)) :
    ∀ (ps cur : List (List Char)) (cnt : Nat),
      (∀ p ∈ ps, p ∈ paras) →
      (∀ w ∈ cur, Word w) →
      cnt = cur.length →
      (cur.length ≤ maxWords ∨ ∃ p ∈ paras, cur = pySplit p ∧ maxWords < cur.length) →
      ∀ c ∈ chunkGo maxWords ps cur cnt,
        (pySplit c).length ≤ maxWords ∨
        ∃ p ∈ paras, c = joinSep ' ' (pySplit p) ∧ maxWords < (pySplit p).length := by
  intro ps
  induction ps with
  | nil =>
    intro cur cnt _ hcur _ hI c hc
    by_cases h : cur = []
    · rw [chunkGo, if_pos h] at hc
      exact absurd hc (List.not_mem_nil c)
    · rw [chunkGo, if_neg h] at hc
      rcases List.mem_singleton.mp hc with rfl
      rcases hI with h1 | ⟨p, hp, rfl, h2⟩
      · exact Or.inl (by rw [pySplit_joinSpace hcur]; exact h1)
      · exact Or.inr ⟨p, hp, rfl, h2⟩
  | cons p ps ih =>
    intro cur cnt hps hcur hcnt hI c hc
    have hpmem : p ∈ paras := hps p (List.mem_cons_self p ps)
    have hps' : ∀ q ∈ ps, q ∈ paras := fun q hq => hps q (List.mem_cons_of_mem p hq)
    by_cases hb : cnt + (pySplit p).length > maxWords
    · rw [chunkGo, if_pos hb] at hc
      rcases List.mem_cons.mp hc with rfl | hc'
      · rcases hI with h1 | ⟨q, hq, rfl, h2⟩
        · exact Or.inl (by rw [pySplit_joinSpace hcur]; exact h1)
        · exact Or.inr ⟨q, hq, rfl, h2⟩
      · refine ih (pySplit p) (pySplit p).length hps' pySplit_words rfl ?_ c hc'
        by_cases hlen : (pySplit p).length ≤ maxWords
        · exact Or.inl hlen
        · exact Or.inr ⟨p, hpmem, rfl, Nat.lt_of_not_le hlen⟩
    · rw [chunkGo, if_neg hb] at hc
      refine ih (cur ++ pySplit p) _ hps' ?_ (by simp [hcnt]) ?_ c hc
      · intro w hw
        rcases List.mem_append.mp hw with h1 | h1
        · exact hcur w h1
        · exact pySplit_words w h1
      · refine Or.inl ?_
        have := Nat.le_of_not_lt hb
        simp only [List.length_append]
        omega

/-- C2: chunk size bound — every chunk produced by `chunk_text` has at most
`maxWords` whitespace tokens, except chunks consisting of the words of a
single paragraph whose own word count exceeds `maxWords` (such a paragraph
becomes one oversized, untruncated chunk). -/
theorem chunk_text_size_bound (text : List Char) (maxWords : Nat) (_hmw : 0 < maxWords) :
    ∀ c ∈ chunk_text text maxWords,
      (pySplit c).length ≤ maxWords ∨
      ∃ p ∈ splitNl text, c = joinSep ' ' (pySplit p) ∧ maxWords < (pySplit p).length := by
  exact chunkGo_bound maxWords (splitNl text) (splitNl text) [] 0
    (fun p hp => hp) (by simp) rfl (Or.inl (Nat.zero_le _))

/-- C2 witness: size bound evaluated on an input with one oversized
paragraph and `maxWords = 2`. -/
theorem chunk_text_size_bound_witness :
    0 < 2 ∧ ∀ c ∈ chunk_text (str "uno dos tres\nx") 2,
      (pySplit c).length ≤ 2 ∨
      ∃ p ∈ splitNl (str "uno dos tres\nx"),
        c = joinSep ' ' (pySplit p) ∧ 2 < (pySplit p).length :=
  ⟨by decide, chunk_text_size_bound (str "uno dos tres\nx") 2 (by decide)⟩

/-- C9 (code evaluation at the failing input): on the single-paragraph input
"a b" with `maxWords = 1`, the boundary yield fires while `current_chunk` is
still empty, so `chunk_text` emits the empty string as its first chunk —
the source has no non-emptiness guard on the mid-loop yield. -/
theorem chunk_text_emits_empty_chunk :
    chunk_text (str "a b") 1 = [[], str "a b"] := by decide

lemma joinSep_not_mem {m sep : Char} (hms : m ≠ sep) :
    ∀ l : List (List Char), (∀ s ∈ l, m ∉ s) → m ∉ joinSep sep l := by
  intro l
  induction l with
  | nil => intro _; simp [joinSep]
  | cons x t ih =>
    intro h
    cases t with
    | nil =>
      simpa [joinSep] using h x (List.mem_cons_self x [])
    | cons y t' =>
      have hx : m ∉ x := h x (List.mem_cons_self x (y :: t'))
      have ht : m ∉ joinSep sep (y :: t') :=
        ih (fun s hs => h s (List.mem_cons_of_mem x hs))
      intro hmem
      rcases List.mem_append.mp hmem with h1 | h1
      · exact hx h1
      · rcases List.mem_cons.mp h1 with h2 | h2
        · exact hms h2
        · exact ht h2

/-- C10: the module-level handler joins transcript segments with single
spaces (`" ".join(...)`, src/app.py line 181), so the text handed to
`chunk_text` has no newline whenever no segment has one; `chunk_text` then
sees a single paragraph, and whenever its total word count exceeds
`maxWords` it yields an empty first chunk followed by one chunk holding the
whole transcript — the per-chunk word bound is never effective in the
composed pipeline. -/
theorem orchestrated_chunking_single_paragraph (segments : List (List Char))
    (maxWords : Nat) (hnl : ∀ s ∈ segments, '\n' ∉ s)
    (hbig : maxWords < (pySplit (joinSep ' ' segments)).length) :
    '\n' ∉ joinSep ' ' segments ∧
    chunk_text (joinSep ' ' segments) maxWords
      = [[], joinSep ' ' (pySplit (joinSep ' ' segments))] := by
  have hnotmem : '\n' ∉ joinSep ' ' segments :=
    joinSep_not_mem (by decide) segments hnl
  refine ⟨hnotmem, ?_⟩
  rw [chunk_text, splitNl_no_newline _ hnotmem]
  have hb : 0 + (pySplit (joinSep ' ' segments)).length > maxWords := by omega
  rw [chunkGo, if_pos hb]
  have hne : pySplit (joinSep ' ' segments) ≠ [] := by
    intro h
    rw [h] at hbig
    exact Nat.not_lt_zero maxWords hbig
  rw [chunkGo, if_neg hne]
  rfl

/-- C10 witness: the composed-pipeline behavior evaluated at two concrete
newline-free segments with `maxWords = 2`. -/
theorem orchestrated_chunking_single_paragraph_witness :
    (∀ s ∈ [str "a b", str "c"], '\n' ∉ s) ∧
    2 < (pySplit (joinSep ' ' [str "a b", str "c"])).length ∧
    ('\n' ∉ joinSep ' ' [str "a b", str "c"] ∧
     chunk_text (joinSep ' ' [str "a b", str "c"]) 2
       = [[], joinSep ' ' (pySplit (joinSep ' ' [str "a b", str "c"]))]) :=
  ⟨by decide, by decide,
    orchestrated_chunking_single_paragraph [str "a b", str "c"] 2 (by decide) (by decide)⟩

/-! ## Summarization client (`summarize_text_async`, src/app.py lines 94-114) -/

/-- Python `text.strip()`: drop leading and trailing whitespace. -/
def pyStrip (l : List Char) : List Char :=
  ((l.dropWhile isSpaceChar).reverse.dropWhile isSpaceChar).reverse

/-- The inline error marker prefixed to a failed per-chunk summary
(src/app.py line 114). -/
def errorMark : List Char := str "⚠️ Error en resumen parcial: "

/-- The user prompt built by `summarize_text_async`: a fixed instruction
block followed by the chunk text truncated to 8000 characters
(`text[:8000]`, src/app.py lines 95-100). -/
def promptFor (text : List Char) : List Char :=
  str "Genera un resumen parcial conciso que capture:\n- Ideas principales y puntos clave\n- Datos numéricos relevantes\n- Conclusiones importantes\n\nTexto: "
    ++ text.take 8000

/-- `summarize_text_async(text)`: build the prompt from the truncated chunk
text and issue exactly one request to the chat-completion service; on
success return the stripped message content, on any exception return the
inline error string instead (the body has a single `create` call, no retry
loop, and a bare `except` that converts every failure into a returned
string).  The external service is a function from the user prompt to a
result or an exception message; the second component of the result counts
the service calls made by this invocation. -/
def summarize_text_async (text : List Char)
    (service : List Char → Except (List Char) (List Char)) :
    List Char × Nat :=
  match service (promptFor text) with
  | Except.ok content => (pyStrip content, 1)
  | Except.error e => (errorMark ++ e, 1)

/-! ## Fan-out executor (`process_chunks_concurrently`, src/app.py lines 116-118) -/

/-- One task completion in the `asyncio.gather` model: when the task for
chunk `i` finishes, its result is stored in slot `i` of the result array —
`gather` returns results by task position, not by completion order. -/
def completeTask (f : α → β) (chunks : List α) (acc : List (Option β)) (i : Nat) :
    List (Option β) :=
  acc.set i ((chunks[i]?).map f)

/-- `process_chunks_concurrently(chunks)` = `await asyncio.gather(*tasks)`
with one task per chunk: the tasks finish in an arbitrary completion order
`order`, each writing its own slot; `gather` hands back the slot array once
every task is done. -/
def process_chunks_concurrently (f : α → β) (chunks : List α) (order : List Nat) :
    List (Option β) :=
  order.foldl (completeTask f chunks) (List.replicate chunks.length none)

lemma completeTask_length (f : α → β) (chunks : List α) (acc : List (Option β)) (i : Nat) :
    (completeTask f chunks acc i).length = acc.length := by
  simp [completeTask]

lemma foldl_completeTask_length (f : α → β) (chunks : List α) :
    ∀ (order : List Nat) (acc : List (Option β)),
      (order.foldl (completeTask f chunks) acc).length = acc.length := by
  intro order
  induction order with
  | nil => intro acc; rfl
  | cons i rest ih =>
    intro acc
    rw [List.foldl_cons, ih, completeTask_length]

lemma foldl_completeTask_getElem (f : α → β) (chunks : List α) :
    ∀ (order : List Nat) (acc : List (Option β)) (j : Nat),
      acc.length = chunks.length → j < chunks.length →
      (j ∈ order ∨ acc[j]? = some ((chunks[j]?).map f)) →
      (order.foldl (completeTask f chunks) acc)[j]? = some ((chunks[j]?).map f) := by
  intro order
  induction order with
  | nil =>
    intro acc j _ _ h
    rcases h with h | h
    · exact absurd h (List.not_mem_nil j)
    · simpa using h
  | cons i rest ih =>
    intro acc j hlen hj h
    rw [List.foldl_cons]
    refine ih (completeTask f chunks acc i) j
      (by rw [completeTask_length]; exact hlen) hj ?_
    by_cases hjr : j ∈ rest
    · exact Or.inl hjr
    · right
      by_cases hij : j = i
      · subst hij
        have hjl : j < acc.length := by omega
        simp [completeTask, List.getElem?_set_self, hjl]
      · rw [completeTask, List.getElem?_set_ne (fun he => hij he.symm)]
        rcases h with h | h
        · rcases List.mem_cons.mp h with h1 | h1
          · exact absurd h1 hij
          · exact absurd h1 hjr
        · exact h

/-- C3: fan-out result ordering and length — for every chunk sequence and
every completion order (any permutation of the task indices),
`process_chunks_concurrently` returns exactly one result per chunk, the
`i`-th being the summary of the `i`-th chunk. -/
theorem process_chunks_concurrently_ordered (f : α → β) (chunks : List α)
    (order : List Nat) (hperm : List.Perm order (List.range chunks.length)) :
    process_chunks_concurrently f chunks order
      = chunks.map (fun c => some (f c)) := by
  apply List.ext_getElem?
  intro j
  by_cases hj : j < chunks.length
  · rw [process_chunks_concurrently,
      foldl_completeTask_getElem f chunks order _ j (by simp) hj
        (Or.inl (hperm.mem_iff.mpr (List.mem_range.mpr hj)))]
    simp [List.getElem?_eq_getElem hj]
  · have h1 : (process_chunks_concurrently f chunks order).length = chunks.length := by
      rw [process_chunks_concurrently, foldl_completeTask_length]
      simp
    rw [List.getElem?_eq_none (by omega), List.getElem?_eq_none (by simp; omega)]

/-- C3 witness: ordering evaluated on three chunks completing in the
scrambled order 2, 0, 1. -/
theorem process_chunks_concurrently_ordered_witness :
    List.Perm [2, 0, 1] (List.range 3) ∧
    process_chunks_concurrently (fun c => joinSep ' ' [c, c])
        [str "a", str "b", str "c"] [2, 0, 1]
      = [some (str "a a"), some (str "b b"), some (str "c c")] := by
  refine ⟨by decide, ?_⟩
  simpa using process_chunks_concurrently_ordered (fun c => joinSep ' ' [c, c]) [str "a", str "b", str "c"] [2, 0, 1] (by decide)

/-! ## Retry wrapper (`@retry(stop=stop_after_attempt(3), wait=wait_fixed(2))`,
src/app.py line 35 — attached to `get_transcript`, lines 34-75) -/

/-- Tenacity retry loop: re-invoke the wrapped call on any exception until
the attempt budget is spent.  `call i` is the outcome of the `i`-th
invocation; the result pairs the final outcome (`none` once attempts are
exhausted and `RetryError` escapes) with the number of attempts made. -/
def retryGo (call : Nat → Except ε α) : Nat → Nat → Option α × Nat
  | 0, i => (none, i)
  | n + 1, i =>
    match call i with
    | Except.ok a => (some a, i + 1)
    | Except.error _ => retryGo call n (i + 1)

/-- `stop_after_attempt(3)` (src/app.py line 35). -/
def getTranscriptMaxAttempts : Nat := 3

/-- `wait_fixed(2)` (src/app.py line 35): fixed 2-second inter-attempt delay. -/
def getTranscriptWait : Nat := 2

/-- The retry behavior of the decorated `get_transcript`: up to 3 attempts
of the underlying fetch, retrying on every exception kind. -/
def get_transcript_attempts (call : Nat → Except ε α) : Option α × Nat :=
  retryGo call getTranscriptMaxAttempts 0

lemma retryGo_always_error {call : Nat → Except ε α} {errMsg : Nat → ε}
    (h : ∀ i, call i = Except.error (errMsg i)) :
    ∀ (n i : Nat), retryGo call n i = (none, i + n) := by
  intro n
  induction n with
  | zero => intro i; rfl
  | succ m ih =>
    intro i
    rw [retryGo, h i, ih (i + 1)]
    refine congrArg (Prod.mk none) ?_
    omega

/-- C4 counterexample: a service that fails with a transient error on every
call makes `summarize_text_async` perform exactly one attempt — not the
claimed three — before returning its error-marker result. -/
theorem summarize_no_retry_counterexample :
    (summarize_text_async (str "hola")
        (fun _ => Except.error (str "Request timed out"))).2 = 1
      ∧ (1 : Nat) ≠ 3 := by
  exact ⟨rfl, by decide⟩

/-- C4 amended: the 3-attempt fixed-delay retry wraps `get_transcript`
(transcript fetching), not per-chunk summarization: when every fetch raises,
the tenacity wrapper performs exactly 3 attempts (with a fixed wait of 2
between them) and ends with no result — retrying every exception kind, not
only transient ones — while `summarize_text_async` performs exactly one
service call per chunk under any service behavior. -/
theorem retry_is_on_get_transcript {ε α : Type} (call : Nat → Except ε α)
    (errMsg : Nat → ε) (hfail : ∀ i, call i = Except.error (errMsg i))
    (text : List Char) (service : List Char → Except (List Char) (List Char)) :
    (get_transcript_attempts call).2 = 3 ∧
    (get_transcript_attempts call).1 = none ∧
    getTranscriptWait = 2 ∧
    (summarize_text_async text service).2 = 1 := by
  have h := retryGo_always_error hfail getTranscriptMaxAttempts 0
  refine ⟨?_, ?_, rfl, ?_⟩
  · rw [get_transcript_attempts, h]
    rfl
  · rw [get_transcript_attempts, h]
  · rw [summarize_text_async]
    cases service (promptFor text) <;> rfl

/-- A fetch stub that raises on every attempt (e.g. the captioning service
is unreachable). -/
def alwaysFailCall : Nat → Except (List Char) (List Char) :=
  fun _ => Except.error (str "TranscriptsDisabled")

/-- A summarization service stub that raises on every request. -/
def alwaysFailService : List Char → Except (List Char) (List Char) :=
  fun _ => Except.error (str "Rate limit reached")

/-- C4 witness: the amended retry placement evaluated on always-failing
stubs. -/
theorem retry_is_on_get_transcript_witness :
    (∀ i, alwaysFailCall i = Except.error (str "TranscriptsDisabled")) ∧
    ((get_transcript_attempts alwaysFailCall).2 = 3 ∧
     (get_transcript_attempts alwaysFailCall).1 = none ∧
     getTranscriptWait = 2 ∧
     (summarize_text_async (str "hola") alwaysFailService).2 = 1) :=
  ⟨fun _ => rfl,
   retry_is_on_get_transcript alwaysFailCall (fun _ => str "TranscriptsDisabled")
     (fun _ => rfl) (str "hola") alwaysFailService⟩

/-- A service stub whose successful response happens to equal the inline
error string of a failed one. -/
def okServiceMark : List Char → Except (List Char) (List Char) :=
  fun _ => Except.ok (errorMark ++ str "boom")

/-- A service stub that raises with detail "boom" on every request. -/
def errServiceBoom : List Char → Except (List Char) (List Char) :=
  fun _ => Except.error (str "boom")

/-- C5 counterexample: there is no structured `failed`/`errorDetail` field —
the failure outcome is an inline string embedded in the summary text, so a
genuine service failure is indistinguishable from a successful response
that happens to contain the same text. -/
theorem summarize_failure_not_structured :
    summarize_text_async (str "hola") errServiceBoom
      = summarize_text_async (str "hola") okServiceMark := by
  decide

/-- C5 amended: chunk-level service failures never escape as exceptions:
`summarize_text_async` catches every exception and returns the inline
error-marker string (the marker plus the exception detail) as the
partial-summary text — there are no structured failed/errorDetail fields —
and the fan-out executor still returns one result slot per chunk, so one
chunk's failure never blocks the others. -/
theorem summarize_error_returned_as_data (text e : List Char)
    (service : List Char → Except (List Char) (List Char))
    (h : service (promptFor text) = Except.error e)
    (chunks : List (List Char)) (order : List Nat) :
    summarize_text_async text service = (errorMark ++ e, 1) ∧
    (process_chunks_concurrently (fun c => (summarize_text_async c service).1)
        chunks order).length = chunks.length := by
  constructor
  · rw [summarize_text_async, h]
  · rw [process_chunks_concurrently, foldl_completeTask_length]
    simp

/-- C5 witness: the amended error-capture behavior evaluated on a failing
stub and two chunks. -/
theorem summarize_error_returned_as_data_witness :
    errServiceBoom (promptFor (str "hola")) = Except.error (str "boom") ∧
    (summarize_text_async (str "hola") errServiceBoom
        = (errorMark ++ str "boom", 1) ∧
     (process_chunks_concurrently
         (fun c => (summarize_text_async c errServiceBoom).1)
         [str "x", str "y"] [0, 1]).length = 2) :=
  ⟨rfl, summarize_error_returned_as_data (str "hola") (str "boom") errServiceBoom
    rfl [str "x", str "y"] [0, 1]⟩

/-! ## In-flight request trace of the fan-out (C6)

`process_chunks_concurrently` awaits `asyncio.gather(*tasks)` with no
semaphore and no worker pool: the event loop runs every task up to its
first await, so each of the `n` tasks issues its service request before any
response is processed, and the requests then complete in some arbitrary
order.  The trace below records those start/finish events and the running
count of requests in flight. -/

inductive FanEvent where
  | start (i : Nat)
  | finish (i : Nat)
deriving DecidableEq

/-- Running maximum of the in-flight request count along an event trace,
starting from `cur` requests in flight. -/
def maxInFlightGo : List FanEvent → Nat → Nat
  | [], cur => cur
  | FanEvent.start _ :: tr, cur => max (cur + 1) (maxInFlightGo tr (cur + 1))
  | FanEvent.finish _ :: tr, cur => max (cur - 1) (maxInFlightGo tr (cur - 1))

/-- Maximum number of simultaneously in-flight requests over a trace. -/
def maxInFlight (tr : List FanEvent) : Nat := maxInFlightGo tr 0

/-- Dispatch trace of the unbounded `asyncio.gather` in
`process_chunks_concurrently`: all `n` tasks issue their request, then the
responses arrive in an arbitrary order `finishOrder`. -/
def gather_trace (n : Nat) (finishOrder : List Nat) : List FanEvent :=
  (List.range n).map FanEvent.start ++ finishOrder.map FanEvent.finish

lemma maxInFlightGo_finishes :
    ∀ (l : List Nat) (cur : Nat), maxInFlightGo (l.map FanEvent.finish) cur ≤ cur := by
  intro l
  induction l with
  | nil => intro cur; exact Nat.le_refl cur
  | cons i rest ih =>
    intro cur
    have h := ih (cur - 1)
    simp only [List.map_cons, maxInFlightGo]
    omega

lemma maxInFlightGo_starts :
    ∀ (l : List Nat) (x : Nat) (rest : List FanEvent) (cur : Nat),
      maxInFlightGo ((x :: l).map FanEvent.start ++ rest) cur
        = max (cur + l.length + 1) (maxInFlightGo rest (cur + l.length + 1)) := by
  intro l
  induction l with
  | nil =>
    intro x rest cur
    simp [maxInFlightGo]
  | cons y l ih =>
    intro x rest cur
    have hstep :
        maxInFlightGo ((x :: y :: l).map FanEvent.start ++ rest) cur
          = max (cur + 1) (maxInFlightGo ((y :: l).map FanEvent.start ++ rest) (cur + 1)) := rfl
    rw [hstep, ih y rest (cur + 1)]
    have harith : cur + 1 + l.length + 1 = cur + (l.length + 1) + 1 := by omega
    rw [harith]
    have hle : cur + 1 ≤ max (cur + (l.length + 1) + 1)
        (maxInFlightGo rest (cur + (l.length + 1) + 1)) :=
      Nat.le_trans (by omega) (Nat.le_max_left _ _)
    rw [Nat.max_eq_right hle]
    simp [List.length_cons]

/-- C6 counterexample: with 20 chunks, the fan-out has all 20 requests in
flight at once — more than any configured ceiling of 5-10 (the source has
no semaphore or worker pool at all). -/
theorem gather_ceiling_counterexample :
    maxInFlight (gather_trace 20 (List.range 20)) = 20 ∧ ¬(20 ≤ 10) := by
  constructor
  · decide
  · decide

/-- C6 amended: the fan-out executor imposes no concurrency ceiling: for
every chunk count `n` and every response arrival order, the maximum number
of simultaneously in-flight service requests equals `n` itself. -/
theorem gather_unbounded_in_flight (n : Nat) (finishOrder : List Nat) :
    maxInFlight (gather_trace n finishOrder) = n := by
  cases n with
  | zero =>
    have h := maxInFlightGo_finishes finishOrder 0
    simp only [maxInFlight, gather_trace, List.range_zero, List.map_nil,
      List.nil_append]
    omega
  | succ m =>
    rw [maxInFlight, gather_trace, List.range_succ_eq_map,
      maxInFlightGo_starts ((List.range m).map Nat.succ) 0
        (finishOrder.map FanEvent.finish) 0]
    have hlen : ((List.range m).map Nat.succ).length = m := by simp
    rw [hlen]
    have h := maxInFlightGo_finishes finishOrder (0 + m + 1)
    omega

/-! ## Transcript cache (`@st.cache_data(ttl=3600)`, src/app.py line 34) -/

/-- `ttl=3600` (src/app.py line 34). -/
def CACHE_TTL : Nat := 3600

/-- Cache lookup: an entry `(key, storedAt, value)` is live at time `now`
iff less than `CACHE_TTL` time units have passed since it was stored. -/
def cacheFind (now : Nat) : List (List Char × Nat × α) → List Char → Option α
  | [], _ => none
  | (k, t, v) :: rest, key =>
    if k = key ∧ now < t + CACHE_TTL then some v else cacheFind now rest key

/-- The `st.cache_data`-wrapped `get_transcript`, keyed by its argument
`video_id`: on a live hit return the cached value with no external call;
on a miss invoke the fetcher, store the result with the current timestamp,
and report one external call.  Returns (value, new cache, external calls). -/
def get_transcript_cached (fetch : List Char → α)
    (cache : List (List Char × Nat × α)) (now : Nat) (videoId : List Char) :
    α × List (List Char × Nat × α) × Nat :=
  match cacheFind now cache videoId with
  | some v => (v, cache, 0)
  | none => (fetch videoId, (videoId, now, fetch videoId) :: cache, 1)

/-- Total number of external service calls made when summarizing a list of
chunks through the fan-out (each chunk pays the calls of its own
`summarize_text_async` invocation). -/
def summarizeCallsTotal (chunks : List (List Char))
    (service : List Char → Except (List Char) (List Char)) : Nat :=
  (chunks.map (fun c => (summarize_text_async c service).2)).sum

/-- A service stub that always succeeds with a fixed summary. -/
def okServiceConst : List Char → Except (List Char) (List Char) :=
  fun _ => Except.ok (str "resumen")

/-- C7 counterexample: two chunk-summarization requests with identical
chunk text make two external service calls, not one — per-chunk
summarization is not cached or deduplicated at all. -/
theorem summarize_no_cache_counterexample :
    summarizeCallsTotal [str "hola", str "hola"] okServiceConst = 2
      ∧ (2 : Nat) ≠ 1 := by
  constructor
  · rfl
  · decide

/-- C7 amended: the TTL cache sits on `get_transcript`, keyed by video id,
not on chunk summarization: two transcript fetches of the same video id
within the 3600-unit TTL cost exactly one external call and the second
returns the cached value, while every `summarize_text_async` invocation
always makes its own service call (identical chunk text included). -/
theorem cache_is_on_get_transcript {α : Type} (fetch : List Char → α)
    (vid : List Char) (now1 now2 : Nat) (h : now2 < now1 + CACHE_TTL)
    (text : List Char) (service : List Char → Except (List Char) (List Char)) :
    (get_transcript_cached fetch [] now1 vid).2.2 = 1 ∧
    (get_transcript_cached fetch
        (get_transcript_cached fetch [] now1 vid).2.1 now2 vid).2.2 = 0 ∧
    (get_transcript_cached fetch
        (get_transcript_cached fetch [] now1 vid).2.1 now2 vid).1
      = (get_transcript_cached fetch [] now1 vid).1 ∧
    (summarize_text_async text service).2 = 1 := by
  have h1 : get_transcript_cached fetch [] now1 vid
      = (fetch vid, [(vid, now1, fetch vid)], 1) := rfl
  have h2 : cacheFind now2 [(vid, now1, fetch vid)] vid = some (fetch vid) := by
    rw [cacheFind, if_pos ⟨rfl, h⟩]
  refine ⟨rfl, ?_, ?_, ?_⟩
  · rw [h1, get_transcript_cached, h2]
  · rw [h1, get_transcript_cached, h2]
  · rw [summarize_text_async]
    cases service (promptFor text) <;> rfl

/-- C7 witness: the amended cache placement evaluated at a concrete video
id fetched at times 0 and 10. -/
theorem cache_is_on_get_transcript_witness :
    10 < 0 + CACHE_TTL ∧
    ((get_transcript_cached List.reverse [] 0 (str "dQw4w9WgXcQ")).2.2 = 1 ∧
     (get_transcript_cached List.reverse
         (get_transcript_cached List.reverse [] 0 (str "dQw4w9WgXcQ")).2.1
         10 (str "dQw4w9WgXcQ")).2.2 = 0 ∧
     (get_transcript_cached List.reverse
         (get_transcript_cached List.reverse [] 0 (str "dQw4w9WgXcQ")).2.1
         10 (str "dQw4w9WgXcQ")).1
       = (get_transcript_cached List.reverse [] 0 (str "dQw4w9WgXcQ")).1 ∧
     (summarize_text_async (str "hola") okServiceConst).2 = 1) :=
  ⟨by decide, cache_is_on_get_transcript List.reverse (str "dQw4w9WgXcQ")
    0 10 (by decide) (str "hola") okServiceConst⟩

/-! ## Module-level submitted handler (src/app.py lines 172-214) -/

/-- Terminal outcome of one handler run (the source has no explicit state
machine; the only failure path is a raised exception, which cannot occur
with total collaborators). -/
inductive PipeState where
  | completed
  | failed
deriving DecidableEq

/-- Observable trace of one run of the `if submitted and url:` handler. -/
structure RunTrace where
  full_text : List Char
  chunks : List (List Char)
  partResults : List (List Char)
  summarizeCalls : Nat
  synthesisCalls : Nat
  outcome : PipeState

/-- The handler body from transcript segments to the final summary
(src/app.py lines 179-214): `full_text = " ".join(t['text'] ...)`, then
`chunks = list(chunk_text(full_text))`, then
`process_chunks_concurrently(chunks)` (one service call per chunk), then
`generate_final_summary(partial_summaries)` — always invoked, issuing one
further streaming request.  There is no emptiness check on the transcript
and no zero-chunk check, and no failure transition exists short of an
exception, so with total collaborators the run always ends successfully. -/
def submitted_handler (segments : List (List Char))
    (service : List Char → Except (List Char) (List Char)) : RunTrace :=
  let full_text := joinSep ' ' segments
  let chunks := chunk_text full_text MAX_WORDS_PER_CHUNK
  { full_text := full_text
    chunks := chunks
    partResults := chunks.map (fun c => (summarize_text_async c service).1)
    summarizeCalls := summarizeCallsTotal chunks service
    synthesisCalls := 1
    outcome := PipeState.completed }

lemma chunkGo_no_words (maxWords : Nat) :
    ∀ ps : List (List Char), (∀ p ∈ ps, pySplit p = []) →
      chunkGo maxWords ps [] 0 = [] := by
  intro ps
  induction ps with
  | nil => intro _; rfl
  | cons p ps ih =>
    intro h
    have hp : pySplit p = [] := h p (List.mem_cons_self p ps)
    have hcond : ¬ (0 + (pySplit p).length > maxWords) := by
      rw [hp]
      simp
    rw [chunkGo, if_neg hcond, hp]
    exact ih (fun q hq => h q (List.mem_cons_of_mem p hq))

lemma chunk_text_no_words (text : List Char) (maxWords : Nat)
    (h : pySplit text = []) : chunk_text text maxWords = [] := by
  refine chunkGo_no_words maxWords (splitNl text) ?_
  intro p hp
  have hflat : (splitNl text).flatMap pySplit = [] :=
    (pySplit_eq_flatMap_splitNl text).symm.trans h
  have := List.flatMap_eq_nil_iff.mp hflat
  exact this p hp

/-- C8 counterexample: a whitespace-only transcript yields zero chunks,
but the handler does not fail — it proceeds straight to the final
synthesis call and ends in the success state. -/
theorem empty_transcript_not_failed :
    (submitted_handler [str "   "] okServiceConst).chunks = [] ∧
    (submitted_handler [str "   "] okServiceConst).outcome ≠ PipeState.failed ∧
    (submitted_handler [str "   "] okServiceConst).synthesisCalls = 1 := by
  refine ⟨by decide, ?_, rfl⟩
  decide

/-- C8 amended: there is no fail-fast on empty input: for every transcript
whose joined text is empty or whitespace-only (no tokens), the handler
produces zero chunks and makes zero per-chunk summarization calls, yet
still issues the one final synthesis request and finishes in the success
state — it never transitions to a failed state. -/
theorem empty_input_proceeds_to_synthesis (segments : List (List Char))
    (service : List Char → Except (List Char) (List Char))
    (h : pySplit (joinSep ' ' segments) = []) :
    (submitted_handler segments service).chunks = [] ∧
    (submitted_handler segments service).summarizeCalls = 0 ∧
    (submitted_handler segments service).synthesisCalls = 1 ∧
    (submitted_handler segments service).outcome = PipeState.completed := by
  have hc : chunk_text (joinSep ' ' segments) MAX_WORDS_PER_CHUNK = [] :=
    chunk_text_no_words _ _ h
  refine ⟨?_, ?_, rfl, rfl⟩
  · simpa [submitted_handler] using hc
  · simp [submitted_handler, summarizeCallsTotal, hc]

/-- C8 witness: the no-fail-fast behavior evaluated on two whitespace-only
segments. -/
theorem empty_input_proceeds_to_synthesis_witness :
    pySplit (joinSep ' ' [str "  ", str ""]) = [] ∧
    ((submitted_handler [str "  ", str ""] okServiceConst).chunks = [] ∧
     (submitted_handler [str "  ", str ""] okServiceConst).summarizeCalls = 0 ∧
     (submitted_handler [str "  ", str ""] okServiceConst).synthesisCalls = 1 ∧
     (submitted_handler [str "  ", str ""] okServiceConst).outcome
       = PipeState.completed) :=
  ⟨by decide, empty_input_proceeds_to_synthesis [str "  ", str ""]
    okServiceConst (by decide)⟩
